import Mathlib

/-!
Verification of the resource-lifecycle manager and plugin client stubs of a
deployment-plugin SDK.

The development shallowly embeds the Go sources:
* `framework/resource/resource.go` and `framework/resource/manager.go`
  (resource manager: create/destroy scheduling, state serialization,
  health summary);
* `internal/funcspec/spec.go` (funcspec derivation);
* `internal/plugin/destroyer.go` and `internal/plugin/logs.go`
  (client stubs).

The dependency solver used by the manager (the external go-argmapper library)
is not part of the repository; executions of the converter graphs the manager
builds are modelled abstractly, per the spec's solver contract: a converter
runs at most once (func-once), runs only after all of its inputs have been
produced, every marker required by the final function must be produced, and a
converter error aborts the remaining plan.
-/

/- ---------------------------------------------------------------------------
Generic helpers: insertion sort (model of Go sort.Ints / sort.Strings /
sort.Slice; on pairwise-distinct keys any correct sort produces this result)
and a model of strings.TrimSuffix.
--------------------------------------------------------------------------- -/

def insertLe {α : Type} (le : α → α → Bool) (x : α) : List α → List α
  | [] => [x]
  | y :: ys => if le x y then x :: y :: ys else y :: insertLe le x ys

def sortLe {α : Type} (le : α → α → Bool) : List α → List α
  | [] => []
  | x :: xs => insertLe le x (sortLe le xs)

theorem insertLe_perm {α : Type} (le : α → α → Bool) (x : α) (l : List α) :
    List.Perm (insertLe le x l) (x :: l) := by
  induction l with
  | nil => simp [insertLe]
  | cons y ys ih =>
    simp only [insertLe]
    by_cases h : le x y
    · simp [h]
    · simp only [h, if_neg]
      exact (ih.cons y).trans (List.Perm.swap x y ys)

theorem sortLe_perm {α : Type} (le : α → α → Bool) (l : List α) :
    List.Perm (sortLe le l) l := by
  induction l with
  | nil => simp [sortLe]
  | cons x xs ih =>
    exact (insertLe_perm le x (sortLe le xs)).trans (ih.cons x)

/-- Lexicographic strict order on character lists, used to model Go's
byte-wise string comparison (sort.Strings). -/
def charListLt : List Char → List Char → Bool
  | [], [] => false
  | [], _ :: _ => true
  | _ :: _, [] => false
  | c :: cs, d :: ds =>
    if c.toNat < d.toNat then true
    else if d.toNat < c.toNat then false
    else charListLt cs ds

/-- Strict string order by code points; agrees with Go's string comparison on
the ASCII names appearing in this development. -/
def strLtB (a b : String) : Bool := charListLt a.data b.data

/-- Strict order comparator on naturals, for sort.Ints. -/
def natLtB (a b : Nat) : Bool := decide (a < b)

/-- Model of strings.TrimSuffix: removes one trailing occurrence of the
suffix, when present. -/
def trimSuffixStr (s suf : String) : String :=
  if suf.data.isSuffixOf s.data then
    String.mk (s.data.take (s.data.length - suf.data.length))
  else s

/- ---------------------------------------------------------------------------
Health summary (healthSummary in manager.go).
--------------------------------------------------------------------------- -/

/-- Health enum of the status report, as declared in plugin.proto:
UNKNOWN = 0, ALIVE = 1, READY = 2, DOWN = 3, PARTIAL = 4, MISSING = 5.
This mirrors the generated StatusReport_Health_name map; values outside the
enum have no name. -/
def healthName : Nat → String
  | 0 => "UNKNOWN"
  | 1 => "ALIVE"
  | 2 => "READY"
  | 3 => "DOWN"
  | 4 => "PARTIAL"
  | 5 => "MISSING"
  | _ => ""

/-- Numeric value of StatusReport_PARTIAL in plugin.proto. -/
def partialHealth : Nat := 4

/-- One per-resource status report entry, restricted to the two fields
healthSummary reads: the health enum value and the resource type string. -/
structure StatusResource where
  health : Nat
  rtype : String
deriving DecidableEq, Repr

/-- Count of reports with the given health and resource type; mirrors the
countByHealthByResourceType nested-map counting in healthSummary. -/
def countHealthType (rs : List StatusResource) (h : Nat) (t : String) : Nat :=
  (rs.filter (fun r => decide (r.health = h ∧ r.rtype = t))).length

/-- Message entries of the mixed-health branch of healthSummary, in emission
order: one entry per (health, resource type) group present in the input,
groups ordered by ascending health enum value (sort.Ints over the map keys)
and, within one health, by ascending resource type name (sort.Strings). -/
def mixedEntries (rs : List StatusResource) : List String :=
  ((sortLe natLtB ((rs.map (fun r => r.health)).dedup)).map
    (fun h =>
      (sortLe strLtB
          (((rs.filter (fun r => decide (r.health = h))).map (fun r => r.rtype)).dedup)).map
        (fun t => s!"{countHealthType rs h t} {t} {healthName h}"))).flatten

/-- Mirrors healthSummary in manager.go: empty input is an error; if exactly
one distinct health is present, the overall health is that health with the
"All N resources are reporting X" message; otherwise the overall health is
PARTIAL and the message is built by appending "C T H, " per (health, type)
group, in sorted order, and trimming the final ", " suffix. -/
def healthSummary (rs : List StatusResource) : Except String (Nat × String) :=
  if rs.length = 0 then
    .error "cannot evaluate health summary - no resources provided"
  else
    match (rs.map (fun r => r.health)).dedup with
    | [h] => .ok (h, s!"All {rs.length} resources are reporting {healthName h}")
    | _ =>
      .ok (partialHealth,
        trimSuffixStr (String.join ((mixedEntries rs).map (fun e => e ++ ", "))) ", ")

/-- Comma-separated concatenation of message entries, as the spec words the
mixed-health message. -/
def commaSeparated : List String → String
  | [] => ""
  | [e] => e
  | e :: f :: rest => e ++ ", " ++ commaSeparated (f :: rest)

theorem take_len_append (d c : List Char) : (d ++ c).take d.length = d := by
  simp

theorem trimSuffixStr_append_comma (d : List Char) :
    trimSuffixStr (String.mk (d ++ [',', ' '])) ", " = String.mk d := by
  have hsuf : [',', ' '].isSuffixOf (d ++ [',', ' ']) = true := by
    rw [List.isSuffixOf_iff_suffix]
    exact List.suffix_append d [',', ' ']
  simp only [trimSuffixStr, hsuf, if_pos]
  have hlen : (d ++ [',', ' ']).length - (", ".data).length = d.length := by
    simp
  rw [hlen]
  exact congrArg String.mk (take_len_append d [',', ' '])

theorem join_comma_structure (es : List String) (hne : es ≠ []) :
    ∃ d : List Char,
      String.join (es.map (fun e => e ++ ", ")) = String.mk (d ++ [',', ' ']) ∧
      commaSeparated es = String.mk d := by
  induction es with
  | nil => exact absurd rfl hne
  | cons e rest ih =>
    cases rest with
    | nil =>
      refine ⟨e.data, ?_, rfl⟩
      rw [String.join_eq]
      simp [String.data_append]
    | cons f rest' =>
      obtain ⟨d', hjoin, hcomma⟩ := ih (by simp)
      refine ⟨e.data ++ [',', ' '] ++ d', ?_, ?_⟩
      · rw [String.join_eq] at hjoin ⊢
        have hdata : (((f :: rest').map (fun x => x ++ ", ")).map String.data).flatten
            = d' ++ [',', ' '] := by
          have h2 := congrArg String.data hjoin
          simpa using h2
        refine congrArg String.mk ?_
        rw [List.map_cons, List.map_cons, List.flatten_cons, hdata]
        simp [String.data_append, List.append_assoc]
      · have hstep : commaSeparated (e :: f :: rest')
            = e ++ ", " ++ commaSeparated (f :: rest') := rfl
        rw [hstep, hcomma]
        refine String.ext ?_
        simp [String.data_append]

theorem healthSummary_mixed_message (es : List String) :
    trimSuffixStr (String.join (es.map (fun e => e ++ ", "))) ", " =
      commaSeparated es := by
  cases es with
  | nil => rfl
  | cons e rest =>
    obtain ⟨d, hjoin, hcomma⟩ := join_comma_structure (e :: rest) (by simp)
    rw [hjoin, hcomma]
    exact trimSuffixStr_append_comma d

theorem healthSummary_all_same (rs : List StatusResource) (H : Nat)
    (hne : rs ≠ []) (hall : ∀ r ∈ rs, r.health = H) :
    healthSummary rs =
      .ok (H, s!"All {rs.length} resources are reporting {healthName H}") := by
  have hlen : ¬ rs.length = 0 := by
    intro h
    exact hne (List.length_eq_zero.mp h)
  have hmap : rs.map (fun r => r.health) = List.replicate rs.length H := by
    have h1 : ∀ b ∈ rs.map (fun r => r.health), b = H := by
      intro b hb
      obtain ⟨r, hr, rfl⟩ := List.mem_map.mp hb
      exact hall r hr
    have h2 := List.eq_replicate_length.mpr h1
    rwa [List.length_map] at h2
  have hdedup : (rs.map (fun r => r.health)).dedup = [H] := by
    rw [hmap]
    exact List.replicate_dedup hlen
  unfold healthSummary
  rw [if_neg hlen, hdedup]

theorem healthSummary_mixed (rs : List StatusResource)
    (hx : ∃ r₁ ∈ rs, ∃ r₂ ∈ rs, r₁.health ≠ r₂.health) :
    healthSummary rs = .ok (partialHealth, commaSeparated (mixedEntries rs)) := by
  obtain ⟨r₁, h₁, r₂, h₂, hne⟩ := hx
  have hlen : ¬ rs.length = 0 := by
    intro h
    rw [List.length_eq_zero] at h
    subst h
    simp at h₁
  have hmem₁ : r₁.health ∈ (rs.map (fun r => r.health)).dedup := by
    rw [List.mem_dedup]
    exact List.mem_map_of_mem _ h₁
  have hmem₂ : r₂.health ∈ (rs.map (fun r => r.health)).dedup := by
    rw [List.mem_dedup]
    exact List.mem_map_of_mem _ h₂
  unfold healthSummary
  rw [if_neg hlen]
  cases hd : (rs.map (fun r => r.health)).dedup with
  | nil =>
    rw [hd] at hmem₁
    simp at hmem₁
  | cons a t =>
    cases t with
    | nil =>
      rw [hd] at hmem₁ hmem₂
      simp at hmem₁ hmem₂
      exact absurd (hmem₁.trans hmem₂.symm) hne
    | cons b t' =>
      rw [healthSummary_mixed_message]

/-- C3: for a non-empty list of per-resource reports, healthSummary returns
the common health with message "All N resources are reporting H" when all
healths agree; otherwise it returns PARTIAL with the comma-separated list of
"count type health" entries, one per (health, resource type) group, ordered
by health enum value and then by resource type name (the order built into
mixedEntries); and the empty list is an error. -/
theorem c3_health_summary :
    (healthSummary [] =
      .error "cannot evaluate health summary - no resources provided") ∧
    (∀ (rs : List StatusResource) (H : Nat), rs ≠ [] → (∀ r ∈ rs, r.health = H) →
      healthSummary rs =
        .ok (H, s!"All {rs.length} resources are reporting {healthName H}")) ∧
    (∀ rs : List StatusResource, (∃ r₁ ∈ rs, ∃ r₂ ∈ rs, r₁.health ≠ r₂.health) →
      healthSummary rs = .ok (partialHealth, commaSeparated (mixedEntries rs))) :=
  ⟨rfl, healthSummary_all_same, healthSummary_mixed⟩

/-- Witness for C3, at the spec's own mixed scenario and a uniform scenario. -/
theorem c3_health_summary_witness :
    healthSummary [⟨2, "deployment"⟩, ⟨2, "pod"⟩, ⟨2, "pod"⟩, ⟨3, "pod"⟩] =
      .ok (4, "1 deployment READY, 2 pod READY, 1 pod DOWN") ∧
    healthSummary [⟨2, "network"⟩, ⟨2, "container"⟩] =
      .ok (2, "All 2 resources are reporting READY") := by
  constructor
  · have h := c3_health_summary.2.2
      [⟨2, "deployment"⟩, ⟨2, "pod"⟩, ⟨2, "pod"⟩, ⟨3, "pod"⟩]
      ⟨⟨2, "deployment"⟩, by decide, ⟨3, "pod"⟩, by decide, by decide⟩
    exact h.trans (by rfl)
  · have h := c3_health_summary.2.1
      [⟨2, "network"⟩, ⟨2, "container"⟩] 2 (by decide) (by decide)
    exact h.trans (by rfl)

/- ---------------------------------------------------------------------------
Create pass (Manager.CreateAll with Resource.mapperForCreate) and destroy
pass (Manager.DestroyAll with Resource.mapperForDestroy).
--------------------------------------------------------------------------- -/

/-- A resource as seen by one CreateAll run: its registered name and the
outcome its create callback produces in this run (none means success). -/
structure CreateRes where
  name : String
  createErr : Option String
deriving DecidableEq, Repr

/-- Create pass of CreateAll, parametrised by the invocation order the
dependency solver chose; the input list is that order. Mirroring the closure
built by mapperForCreate, each resource's name is appended to the creation
state order BEFORE its create callback is invoked; per the solver contract a
callback error aborts the remaining plan. Returns the final recorded order
and the first error. -/
def runCreates : List CreateRes → List String × Option String
  | [] => ([], none)
  | r :: rest =>
    match r.createErr with
    | some e => ([r.name], some e)
    | none =>
      let p := runCreates rest
      (r.name :: p.1, p.2)

/-- A destroy execution of the converter graph DestroyAll builds over a
creation order. DestroyAll gives the destroyer of the resource at position i
the markers of all resources at positions after i as extra inputs, makes the
final function depend on every marker, and registers every destroyer
func-once. An execution is therefore a sequence that destroys each recorded
resource exactly once (a permutation of the order) in which, whenever a is
before b in the creation order, b's marker is produced (b is destroyed)
before a's destroyer runs. -/
def validDestroyExec (order seq : List String) : Prop :=
  List.Perm seq order ∧
  order.Pairwise (fun a b => seq.indexOf b < seq.indexOf a)

instance (order seq : List String) : Decidable (validDestroyExec order seq) := by
  unfold validDestroyExec
  exact instDecidableAnd

/-- Central scheduling fact: for a duplicate-free creation order, the only
valid destroy execution is the exact reverse of the creation order. -/
theorem validDestroyExec_eq_reverse {order seq : List String}
    (hnd : order.Nodup) (h : validDestroyExec order seq) : seq = order.reverse := by
  obtain ⟨hperm, hpw⟩ := h
  have hseqnd : seq.Nodup := hperm.nodup_iff.mpr hnd
  have hsorted_seq : seq.Pairwise (fun a b => seq.indexOf a < seq.indexOf b) := by
    rw [List.pairwise_iff_getElem]
    intro i j hi hj hij
    rw [List.indexOf_getElem hseqnd i hi, List.indexOf_getElem hseqnd j hj]
    exact hij
  have hsorted_rev : order.reverse.Pairwise
      (fun a b => seq.indexOf a < seq.indexOf b) :=
    List.pairwise_reverse.mpr hpw
  have hperm2 : List.Perm seq order.reverse :=
    hperm.trans (List.reverse_perm order).symm
  haveI : IsAntisymm String (fun a b => seq.indexOf a < seq.indexOf b) :=
    ⟨fun _ _ h1 h2 => absurd (h1.trans h2) (lt_irrefl _)⟩
  exact List.eq_of_perm_of_sorted hperm2 hsorted_seq hsorted_rev

theorem runCreates_all_ok (seq : List CreateRes)
    (h : ∀ r ∈ seq, r.createErr = none) :
    runCreates seq = (seq.map (fun r => r.name), none) := by
  induction seq with
  | nil => rfl
  | cons r rest ih =>
    have hr : r.createErr = none := h r (by simp)
    have hrest := ih (fun x hx => h x (by simp [hx]))
    simp [runCreates, hr, hrest]

theorem runCreates_fail (pre : List CreateRes) (f : CreateRes)
    (rest : List CreateRes) (e : String)
    (hpre : ∀ r ∈ pre, r.createErr = none) (hf : f.createErr = some e) :
    runCreates (pre ++ f :: rest) =
      (pre.map (fun r => r.name) ++ [f.name], some e) := by
  induction pre with
  | nil => simp [runCreates, hf]
  | cons r pre' ih =>
    have hr : r.createErr = none := hpre r (by simp)
    have h' := ih (fun x hx => hpre x (by simp [hx]))
    simp [runCreates, hr, h']

/-- C5 counterexample: resource A's create succeeds, then resource B's create
callback returns an error. The recorded create-order list is ["A", "B"]:
it contains "B" even though B's callback failed, because mapperForCreate
appends the name before the callback is invoked; the claim predicts ["A"]. -/
theorem c5_create_order_cex :
    (runCreates [⟨"A", none⟩, ⟨"B", some "whelp"⟩]).1 = ["A", "B"] ∧
    "B" ∈ (runCreates [⟨"A", none⟩, ⟨"B", some "whelp"⟩]).1 ∧
    (runCreates [⟨"A", none⟩, ⟨"B", some "whelp"⟩]).1 ≠ ["A"] := by decide

/-- C5 (amended): the create-order list records the names of exactly the
resources whose create callbacks were invoked, in invocation order: all of
them when every callback succeeds, and the successful prefix followed by the
failing resource when one fails (each name is appended immediately before its
callback runs, so the failing resource is the last element). -/
theorem c5_create_order_records_invoked :
    (∀ seq : List CreateRes, (∀ r ∈ seq, r.createErr = none) →
      (runCreates seq).1 = seq.map (fun r => r.name)) ∧
    (∀ (pre : List CreateRes) (f : CreateRes) (rest : List CreateRes) (e : String),
      (∀ r ∈ pre, r.createErr = none) → f.createErr = some e →
      (runCreates (pre ++ f :: rest)).1 =
        pre.map (fun r => r.name) ++ [f.name]) := by
  constructor
  · intro seq h
    rw [runCreates_all_ok seq h]
  · intro pre f rest e hpre hf
    rw [runCreates_fail pre f rest e hpre hf]

/-- Witness for C5's amended theorem at a concrete failing run. -/
theorem c5_create_order_witness :
    (runCreates [⟨"A", none⟩, ⟨"B", some "whelp"⟩]).1 = ["A", "B"] := by
  have h := c5_create_order_records_invoked.2
    [⟨"A", none⟩] ⟨"B", some "whelp"⟩ [] "whelp" (by decide) rfl
  exact h.trans (by decide)

/-- C1 counterexample: A succeeds, then B's create callback fails, so k = 1
resource was successfully created. The recorded order is ["A", "B"] and the
unique rollback destroy execution is ["B", "A"]: it destroys two resources,
including the failed B, while the sequence the claim predicts (exactly the
k = 1 successfully-created resources, ["A"]) is not a valid execution. -/
theorem c1_rollback_cex :
    runCreates [⟨"A", none⟩, ⟨"B", some "whelp"⟩] = (["A", "B"], some "whelp") ∧
    validDestroyExec ["A", "B"] ["B", "A"] ∧
    ¬ validDestroyExec ["A", "B"] ["A"] := by decide

/-- C1 (amended): when a create callback fails after k resources were
successfully created, CreateAll's automatic rollback (via DestroyAll over the
recorded order) destroys exactly those k resources plus the resource whose
create callback failed, in reverse invocation order, with the failed resource
first; resources whose create callbacks were never invoked are not
destroyed. -/
theorem c1_rollback_destroys_invoked (pre : List CreateRes) (f : CreateRes)
    (rest : List CreateRes) (e : String)
    (hpre : ∀ r ∈ pre, r.createErr = none) (hf : f.createErr = some e)
    (hnd : ((pre ++ f :: rest).map (fun r => r.name)).Nodup) :
    (runCreates (pre ++ f :: rest)).2 = some e ∧
    ∀ dseq, validDestroyExec (runCreates (pre ++ f :: rest)).1 dseq →
      dseq = f.name :: (pre.map (fun r => r.name)).reverse ∧
      ∀ r ∈ rest, r.name ∉ dseq := by
  have hrc := runCreates_fail pre f rest e hpre hf
  have hsplit : (pre ++ f :: rest).map (fun r => r.name) =
      (pre.map (fun r => r.name) ++ [f.name]) ++ rest.map (fun r => r.name) := by
    simp
  rw [hsplit, List.nodup_append] at hnd
  obtain ⟨hnd₁, _, hdisj⟩ := hnd
  constructor
  · rw [hrc]
  · intro dseq hvalid
    rw [hrc] at hvalid
    have heq := validDestroyExec_eq_reverse hnd₁ hvalid
    have hrev : (pre.map (fun r => r.name) ++ [f.name]).reverse =
        f.name :: (pre.map (fun r => r.name)).reverse := by simp
    constructor
    · rw [heq, hrev]
    · intro r hr hmem
      rw [heq] at hmem
      rw [List.mem_reverse] at hmem
      exact hdisj hmem (List.mem_map_of_mem _ hr)

/-- Witness for C1's amended theorem at the concrete failing run. -/
theorem c1_rollback_witness :
    (runCreates [⟨"A", none⟩, ⟨"B", some "whelp"⟩, ⟨"C", none⟩]).2 = some "whelp" ∧
    ["B", "A"] = "B" :: (["A"] : List String).reverse ∧
    "C" ∉ (["B", "A"] : List String) := by
  have h := c1_rollback_destroys_invoked
    [⟨"A", none⟩] ⟨"B", some "whelp"⟩ [⟨"C", none⟩] "whelp"
    (by decide) rfl (by decide)
  have h2 := h.2 ["B", "A"] (by decide)
  exact ⟨h.1, h2.1.trans (by decide), h2.2 ⟨"C", none⟩ (by decide)⟩

/-- C2: after a CreateAll in which every create callback succeeded, the
recorded creation order lists all resources in invocation order, and every
valid destroy execution of a subsequent DestroyAll destroys each recorded
resource exactly once, in exactly the reverse of the recorded creation
order. -/
theorem c2_destroy_reverse_create (seq : List CreateRes)
    (hok : ∀ r ∈ seq, r.createErr = none)
    (hnd : (seq.map (fun r => r.name)).Nodup) :
    (runCreates seq).1 = seq.map (fun r => r.name) ∧
    ∀ dseq, validDestroyExec (runCreates seq).1 dseq →
      (∀ n ∈ (runCreates seq).1, dseq.count n = 1) ∧
      dseq = (seq.map (fun r => r.name)).reverse := by
  have h1 : (runCreates seq).1 = seq.map (fun r => r.name) := by
    rw [runCreates_all_ok seq hok]
  refine ⟨h1, ?_⟩
  intro dseq hvalid
  rw [h1] at hvalid
  constructor
  · intro n hn
    rw [h1] at hn
    rw [hvalid.1.count_eq]
    exact List.count_eq_one_of_mem hnd hn
  · exact validDestroyExec_eq_reverse hnd hvalid

/-- Witness for C2 at a concrete two-resource run. -/
theorem c2_destroy_witness :
    (runCreates [⟨"A", none⟩, ⟨"B", none⟩]).1 = ["A", "B"] ∧
    (["B", "A"] : List String).count "A" = 1 ∧
    (["B", "A"] : List String) = ["A", "B"].reverse := by
  have h := c2_destroy_reverse_create [⟨"A", none⟩, ⟨"B", none⟩]
    (by decide) (by decide)
  have h2 := h.2 ["B", "A"] (by decide)
  refine ⟨h.1.trans (by decide), ?_, h2.2.trans (by decide)⟩
  exact h2.1 "A" (by decide)

/-- A resource as seen by the legacy fallback branch of DestroyAll: its name,
whether it currently holds non-nil state, and the monotonic logical clock
recorded by its last SetState call (setStateClock). -/
structure StoredRes where
  name : String
  hasState : Bool
  clock : Nat
deriving DecidableEq, Repr

/-- Creation order inferred by DestroyAll when no create-order list was
recorded: the names of the resources holding non-nil state, sorted ascending
by setStateClock (sort.Slice with a clock-less-than comparator); resources
with nil state are never added. Destruction then runs over this order like
any other, i.e. in its reverse. -/
def fallbackOrder (rs : List StoredRes) : List String :=
  (sortLe (fun a b => natLtB a.clock b.clock)
      (rs.filter (fun r => r.hasState))).map (fun r => r.name)

/-- C6 counterexample: resources A (state set at clock 2), B (state set at
clock 1) and stateless C. The inferred creation order is ["B", "A"]
(ascending clock); the unique valid destroy execution is ["A", "B"], i.e.
DESCENDING clock order, while the claimed destruction order (ascending clock,
["B", "A"]) is not a valid execution. -/
theorem c6_fallback_cex :
    fallbackOrder [⟨"A", true, 2⟩, ⟨"B", true, 1⟩, ⟨"C", false, 3⟩] = ["B", "A"] ∧
    validDestroyExec ["B", "A"] ["A", "B"] ∧
    ¬ validDestroyExec ["B", "A"] ["B", "A"] := by decide

/-- C6 (amended): with no recorded create-order list, DestroyAll infers a
creation order by sorting stateful resources ascending by the setStateClock
recorded at their SetState calls, and destroys in the REVERSE of that order
(descending clock); resources whose state is nil are skipped entirely. -/
theorem c6_fallback_destroy (rs : List StoredRes)
    (hnd : (rs.map (fun r => r.name)).Nodup) :
    ∀ dseq, validDestroyExec (fallbackOrder rs) dseq →
      dseq = (fallbackOrder rs).reverse ∧
      ∀ r ∈ rs, r.hasState = false → r.name ∉ dseq := by
  have hperm : List.Perm (fallbackOrder rs)
      ((rs.filter (fun r => r.hasState)).map (fun r => r.name)) :=
    (sortLe_perm _ _).map _
  have hsub : ((rs.filter (fun r => r.hasState)).map (fun r => r.name)).Sublist
      (rs.map (fun r => r.name)) :=
    (List.filter_sublist rs).map _
  have hndf : (fallbackOrder rs).Nodup :=
    hperm.nodup_iff.mpr (hnd.sublist hsub)
  intro dseq hvalid
  have heq := validDestroyExec_eq_reverse hndf hvalid
  refine ⟨heq, ?_⟩
  intro r hr hstate hmem
  rw [heq, List.mem_reverse] at hmem
  have hmem2 : r.name ∈ (rs.filter (fun r => r.hasState)).map (fun r => r.name) :=
    hperm.mem_iff.mp hmem
  obtain ⟨x, hx, hxname⟩ := List.mem_map.mp hmem2
  rw [List.mem_filter] at hx
  have hxr : x = r := List.inj_on_of_nodup_map hnd hx.1 hr hxname
  rw [hxr, hstate] at hx
  simp at hx

/-- Witness for C6's amended theorem at the concrete three-resource input. -/
theorem c6_fallback_witness :
    (["A", "B"] : List String) =
      (fallbackOrder [⟨"A", true, 2⟩, ⟨"B", true, 1⟩, ⟨"C", false, 3⟩]).reverse ∧
    "C" ∉ (["A", "B"] : List String) := by
  have h := c6_fallback_destroy [⟨"A", true, 2⟩, ⟨"B", true, 1⟩, ⟨"C", false, 3⟩]
    (by decide) ["A", "B"] (by decide)
  exact ⟨h.1, h.2 ⟨"C", false, 3⟩ (by decide) rfl⟩

/- ---------------------------------------------------------------------------
State serialization: Manager.State / Manager.LoadState over Resource.proto /
Resource.loadState.
--------------------------------------------------------------------------- -/

/-- A resource declaration with its runtime state, over an arbitrary type of
state values that (per the claim's hypothesis) serialize losslessly into the
opaque state envelope; the envelope is modelled as carrying the value itself.
hasStateType records whether WithState declared a state type. -/
structure ResourceDecl (σ : Type) where
  name : String
  hasStateType : Bool
  stateValue : Option σ
deriving DecidableEq, Repr

/-- Serialized per-resource state, mirroring Framework_ResourceState: the
name always; the raw state envelope only when the resource holds a non-nil
serializable state (Resource.proto emits only the name otherwise). -/
structure ResourceStateProto (σ : Type) where
  name : String
  raw : Option σ
deriving DecidableEq, Repr

/-- Serialized manager state, mirroring Framework_ResourceManagerState. -/
structure ManagerStateProto (σ : Type) where
  resources : List (ResourceStateProto σ)
  createOrder : List String
deriving DecidableEq, Repr

/-- The manager's in-memory state relevant to State/LoadState: registered
resources and the recorded creation state (none when never created). -/
structure ManagerState (σ : Type) where
  resources : List (ResourceDecl σ)
  createState : Option (List String)
deriving DecidableEq, Repr

/-- Mirrors Resource.proto: nil state serializes to just the name, non-nil
state also carries its envelope. -/
def resourceProto {σ : Type} (r : ResourceDecl σ) : ResourceStateProto σ :=
  { name := r.name, raw := r.stateValue }

/-- Mirrors Manager.State / Manager.proto: serialize every resource, and the
creation order when creation state exists (empty otherwise). -/
def managerStateProto {σ : Type} (m : ManagerState σ) : ManagerStateProto σ :=
  { resources := m.resources.map resourceProto,
    createOrder := m.createState.getD [] }

/-- Mirrors Resource.loadState: a stored entry with no raw envelope is
ignored; otherwise a fresh state value is allocated and the envelope decoded
into it, which requires the resource to declare a state type. -/
def resourceLoadState {σ : Type} (r : ResourceDecl σ) (sr : ResourceStateProto σ) :
    Except String (ResourceDecl σ) :=
  match sr.raw with
  | none => .ok r
  | some w =>
    if r.hasStateType then .ok { r with stateValue := some w }
    else .error s!"resource {r.name}: no defined state type"

/-- One step of Manager.LoadState's resource loop: look the stored name up
among the registered resources; an unknown name is an error, a known one has
the stored state loaded into it in place (an error from loadState is
returned early, as in the Go loop). -/
def loadIntoResources {σ : Type} (rs : List (ResourceDecl σ))
    (sr : ResourceStateProto σ) : Except String (List (ResourceDecl σ)) :=
  match rs with
  | [] => .error s!"failed to deserialize state: unknown resource {sr.name}"
  | r :: rest =>
    if r.name = sr.name then
      match resourceLoadState r sr with
      | .error e => .error e
      | .ok r' => .ok (r' :: rest)
    else
      match loadIntoResources rest sr with
      | .error e => .error e
      | .ok rest' => .ok (r :: rest')

def loadStep {σ : Type} (acc : ManagerState σ) (sr : ResourceStateProto σ) :
    Except String (ManagerState σ) :=
  match loadIntoResources acc.resources sr with
  | .error e => .error e
  | .ok rs' => .ok { acc with resources := rs' }

/-- Mirrors Manager.LoadState: initialize the creation state from the stored
order, then load every stored resource state into the matching registered
resource, failing on unknown names. -/
def managerLoadState {σ : Type} (m : ManagerState σ) (s : ManagerStateProto σ) :
    Except String (ManagerState σ) :=
  s.resources.foldlM loadStep { m with createState := some s.createOrder }

/-- A freshly constructed manager with the same resource declarations as m:
same names and state-type declarations, no state, no creation state. -/
def freshManager {σ : Type} (m : ManagerState σ) : ManagerState σ :=
  { resources := m.resources.map (fun r => { r with stateValue := none }),
    createState := none }

theorem loadInto_append_skip {σ : Type} (done rs : List (ResourceDecl σ))
    (sr : ResourceStateProto σ) (h : ∀ d ∈ done, d.name ≠ sr.name) :
    loadIntoResources (done ++ rs) sr =
      match loadIntoResources rs sr with
      | .error e => .error e
      | .ok x => .ok (done ++ x) := by
  induction done with
  | nil =>
    cases hres : loadIntoResources rs sr <;> simp [hres]
  | cons d done' ih =>
    have hd : d.name ≠ sr.name := h d (by simp)
    have h' := ih (fun x hx => h x (by simp [hx]))
    cases hres : loadIntoResources rs sr with
    | error e =>
      rw [hres] at h'
      simp [loadIntoResources, if_neg hd, h']
    | ok v =>
      rw [hres] at h'
      simp [loadIntoResources, if_neg hd, h']

theorem loadInto_self {σ : Type} (r : ResourceDecl σ) (rest : List (ResourceDecl σ))
    (hty : r.stateValue.isSome → r.hasStateType = true) :
    loadIntoResources
        (({ r with stateValue := none } : ResourceDecl σ) :: rest)
        (resourceProto r) = .ok (r :: rest) := by
  cases hsv : r.stateValue with
  | none =>
    cases r with
    | mk n ht sv =>
      simp only at hsv
      simp [loadIntoResources, resourceProto, resourceLoadState, hsv]
  | some w =>
    have hht : r.hasStateType = true := hty (by simp [hsv])
    cases r with
    | mk n ht sv =>
      simp only at hsv hht
      simp [loadIntoResources, resourceProto, resourceLoadState, hsv, hht]

theorem managerLoad_fold_restore {σ : Type} (todo : List (ResourceDecl σ)) :
    ∀ (done : List (ResourceDecl σ)) (o : List String),
    (∀ r ∈ todo, r.name ∉ done.map (fun d => d.name)) →
    (todo.map (fun r => r.name)).Nodup →
    (∀ r ∈ todo, r.stateValue.isSome → r.hasStateType = true) →
    (todo.map resourceProto).foldlM loadStep
      ({ resources := done ++ todo.map (fun r => { r with stateValue := none }),
         createState := some o } : ManagerState σ) =
      .ok { resources := done ++ todo, createState := some o } := by
  induction todo with
  | nil =>
    intro done o _ _ _
    simp only [List.map_nil, List.append_nil, List.foldlM_nil]
    rfl
  | cons r todo' ih =>
    intro done o hdisj hnd hty
    have hself := loadInto_self r (todo'.map (fun x => { x with stateValue := none }))
      (hty r (by simp))
    have hskip := loadInto_append_skip done
      (({ r with stateValue := none } : ResourceDecl σ) ::
        todo'.map (fun x => { x with stateValue := none }))
      (resourceProto r)
      (fun d hd => by
        intro hcontra
        simp only [resourceProto] at hcontra
        exact hdisj r (by simp) (by
          rw [← hcontra]
          exact List.mem_map_of_mem _ hd))
    simp only [List.map_cons, List.foldlM_cons, loadStep, hskip, hself]
    have hrearr : done ++ r :: todo'.map (fun x => { x with stateValue := none }) =
        (done ++ [r]) ++ todo'.map (fun x => { x with stateValue := none }) := by
      simp
    rw [hrearr]
    have hdisj' : ∀ x ∈ todo', x.name ∉ (done ++ [r]).map (fun d => d.name) := by
      intro x hx
      simp only [List.map_append, List.mem_append, List.map_cons, List.map_nil,
        List.mem_singleton, not_or]
      constructor
      · exact fun hc => hdisj x (by simp [hx]) hc
      · intro hc
        simp only [List.map_cons, List.nodup_cons] at hnd
        exact hnd.1 (by
          rw [← hc]
          exact List.mem_map_of_mem _ hx)
    have hres := ih (done ++ [r]) o hdisj' (by
      simp only [List.map_cons, List.nodup_cons] at hnd
      exact hnd.2) (fun x hx => hty x (by simp [hx]))
    simpa using hres

theorem loadInto_unknown {σ : Type} (rs : List (ResourceDecl σ))
    (sr : ResourceStateProto σ) (h : sr.name ∉ rs.map (fun r => r.name)) :
    loadIntoResources rs sr =
      .error s!"failed to deserialize state: unknown resource {sr.name}" := by
  induction rs with
  | nil => rfl
  | cons r rest ih =>
    have hr : r.name ≠ sr.name := by
      intro hc
      exact h (by
        rw [← hc]
        exact List.mem_map_of_mem _ (by simp))
    have h' := ih (fun hc => h (by
      simp only [List.map_cons, List.mem_cons]
      exact Or.inr hc))
    simp [loadIntoResources, if_neg hr, h']

theorem resourceLoadState_name {σ : Type} (r r' : ResourceDecl σ)
    (sr : ResourceStateProto σ) (h : resourceLoadState r sr = .ok r') :
    r'.name = r.name := by
  cases hraw : sr.raw with
  | none =>
    simp [resourceLoadState, hraw] at h
    rw [← h]
  | some w =>
    by_cases hht : r.hasStateType = true
    · simp [resourceLoadState, hraw, hht] at h
      rw [← h]
    · simp [resourceLoadState, hraw, hht] at h

theorem loadInto_names {σ : Type} (rs : List (ResourceDecl σ))
    (sr : ResourceStateProto σ) :
    ∀ rs', loadIntoResources rs sr = .ok rs' →
      rs'.map (fun r => r.name) = rs.map (fun r => r.name) := by
  induction rs with
  | nil => intro rs' h; simp [loadIntoResources] at h
  | cons r rest ih =>
    intro rs' h
    by_cases hn : r.name = sr.name
    · simp only [loadIntoResources, if_pos hn] at h
      cases hres : resourceLoadState r sr with
      | error e => rw [hres] at h; simp at h
      | ok r' =>
        rw [hres] at h
        simp at h
        rw [← h]
        simp [resourceLoadState_name r r' sr hres]
    · simp only [loadIntoResources, if_neg hn] at h
      cases hres : loadIntoResources rest sr with
      | error e => rw [hres] at h; simp at h
      | ok v =>
        rw [hres] at h
        simp at h
        rw [← h]
        simp [ih v hres]

theorem managerLoad_unknown {σ : Type} (protos : List (ResourceStateProto σ)) :
    ∀ acc : ManagerState σ,
    (∃ sr ∈ protos, sr.name ∉ acc.resources.map (fun r => r.name)) →
    ∀ m', protos.foldlM loadStep acc ≠ .ok m' := by
  induction protos with
  | nil =>
    intro acc hex m'
    obtain ⟨sr, hmem, _⟩ := hex
    simp at hmem
  | cons sr0 rest ih =>
    intro acc hex m'
    cases hstep : loadStep acc sr0 with
    | error e =>
      intro hc
      rw [List.foldlM_cons, hstep] at hc
      exact Except.noConfusion hc
    | ok acc' =>
      obtain ⟨sr, hmem, hnot⟩ := hex
      rcases List.mem_cons.mp hmem with heq | hrest
    
      · subst heq
        have hbad := loadInto_unknown acc.resources sr hnot
        rw [loadStep, hbad] at hstep
        simp at hstep
      · have hnames : acc'.resources.map (fun r => r.name) =
            acc.resources.map (fun r => r.name) := by
          rw [loadStep] at hstep
          cases hload : loadIntoResources acc.resources sr0 with
          | error e => rw [hload] at hstep; simp at hstep
          | ok rs' =>
            rw [hload] at hstep
            simp at hstep
            rw [← hstep]
            exact loadInto_names acc.resources sr0 rs' hload
        have hnot' : sr.name ∉ acc'.resources.map (fun r => r.name) := by
          rw [hnames]; exact hnot
        intro hc
        rw [List.foldlM_cons, hstep] at hc
        exact ih acc' ⟨sr, hrest, hnot'⟩ m' hc

/-- C4: for a manager whose non-nil states are serializable (every stateful
resource declares a state type, the claim's serializability hypothesis),
loading the serialized state into a freshly constructed manager with the same
resource declarations reproduces the manager: the same creation-order list
and structurally equal per-resource states; and LoadState fails whenever the
stored state names a resource not registered on the manager. -/
theorem c4_state_roundtrip :
    (∀ (σ : Type) (m : ManagerState σ),
      (m.resources.map (fun r => r.name)).Nodup →
      (∀ r ∈ m.resources, r.stateValue.isSome → r.hasStateType = true) →
      managerLoadState (freshManager m) (managerStateProto m) =
        .ok { resources := m.resources,
              createState := some (m.createState.getD []) }) ∧
    (∀ (σ : Type) (m : ManagerState σ) (s : ManagerStateProto σ),
      (∃ sr ∈ s.resources, sr.name ∉ m.resources.map (fun r => r.name)) →
      ∀ m', managerLoadState m s ≠ .ok m') := by
  constructor
  · intro σ m hnd hty
    have h := managerLoad_fold_restore m.resources [] (m.createState.getD [])
      (by simp) hnd hty
    simpa [managerLoadState, freshManager, managerStateProto] using h
  · intro σ m s hex m'
    exact managerLoad_unknown s.resources
      { m with createState := some s.createOrder } hex m'

/-- Witness for C4 at a concrete two-resource manager over natural-number
states, plus a stored state naming an unregistered resource. -/
theorem c4_state_roundtrip_witness :
    managerLoadState
        (freshManager ({ resources := [⟨"A", true, some 42⟩, ⟨"B", false, none⟩],
                         createState := some ["A", "B"] } : ManagerState Nat))
        (managerStateProto
          ({ resources := [⟨"A", true, some 42⟩, ⟨"B", false, none⟩],
             createState := some ["A", "B"] } : ManagerState Nat)) =
      .ok { resources := [⟨"A", true, some 42⟩, ⟨"B", false, none⟩],
            createState := some ["A", "B"] } ∧
    managerLoadState
        ({ resources := [⟨"A", true, none⟩], createState := none } : ManagerState Nat)
        ({ resources := [⟨"X", none⟩], createOrder := [] } : ManagerStateProto Nat) ≠
      .ok { resources := [⟨"A", true, none⟩], createState := some [] } := by
  constructor
  · have h := c4_state_roundtrip.1 Nat
      { resources := [⟨"A", true, some 42⟩, ⟨"B", false, none⟩],
        createState := some ["A", "B"] } (by decide) (by decide)
    exact h
  · exact c4_state_roundtrip.2 Nat _ _ ⟨⟨"X", none⟩, by decide, by decide⟩ _

/- ---------------------------------------------------------------------------
Funcspec derivation (internal/funcspec/spec.go, Spec).
--------------------------------------------------------------------------- -/

/-- Parameter classes relevant to spec derivation, for signatures whose
parameters already satisfy the redefine input filter of Spec (context,
primitives, protobuf messages, out-parameters); converter-reachable
parameters are rewritten by the external solver before the emission loops
and are outside this model. -/
inductive GoParam
  | protoMsg (typeUrl : String)
  | prim (kind : Nat)
  | contextParam
  | outParameter
deriving DecidableEq, Repr

/-- One advertised FuncSpec value: the name (empty for plain parameters), the
message type (the subtype, empty for primitives), and the PrimitiveType enum
value (0, INVALID, for messages). The PrimitiveType enum in plugin.proto
matches the Go reflect.Kind values exactly: BOOL = 1, INT = 2 ... UINT64 =
11, STRING = 24. -/
structure FuncSpecValue where
  vname : String
  typeUrl : String
  primitiveType : Nat
deriving DecidableEq, Repr

structure FuncSpecData where
  args : List FuncSpecValue
  result : List FuncSpecValue
deriving DecidableEq, Repr

def isProtoParam : GoParam → Bool
  | .protoMsg _ => true
  | _ => false

/-- The validPrimitive table of spec.go, by reflect.Kind value: Bool (1),
Int through Int64 (2-6), Uint through Uint64 (7-11), String (24). -/
def isPrimParam : GoParam → Bool
  | .prim k => decide (k = 1 ∨ (2 ≤ k ∧ k ≤ 11) ∨ k = 24)
  | _ => false

/-- Mirrors funcspec.Spec: outputs are filtered to protobuf messages and the
redefinition fails when none remains; the advertised args are the inputs
that are messages (emitting the type name) or supported primitives (emitting
the reflect.Kind value as the PrimitiveType); every other input, in
particular the ambient context and out-parameters, is skipped. -/
def funcspecSpec (inputs outputs : List GoParam) : Except String FuncSpecData :=
  if (outputs.filter isProtoParam).isEmpty then
    .error "no output matches the filter"
  else
    .ok
      { args := inputs.filterMap (fun p =>
          match p with
          | .protoMsg url => some { vname := "", typeUrl := url, primitiveType := 0 }
          | .prim k =>
            if isPrimParam (.prim k) then
              some { vname := "", typeUrl := "", primitiveType := k }
            else none
          | .contextParam => none
          | .outParameter => none),
        result := outputs.filterMap (fun p =>
          match p with
          | .protoMsg url => some { vname := "", typeUrl := url, primitiveType := 0 }
          | _ => none) }

/-- C7: a function of shape fn(bool) to Empty yields a spec with exactly one
arg of primitive kind BOOL (enum value 1) and empty subtype, and one result
carrying the empty-message type name; and inserting an ambient context or
out-parameter anywhere in a signature never changes the advertised spec. -/
theorem c7_funcspec_bool_empty :
    funcspecSpec [.prim 1] [.protoMsg "google.protobuf.Empty"] =
      .ok { args := [{ vname := "", typeUrl := "", primitiveType := 1 }],
            result := [{ vname := "", typeUrl := "google.protobuf.Empty",
                         primitiveType := 0 }] } ∧
    (∀ (ins₁ ins₂ outs : List GoParam),
      funcspecSpec (ins₁ ++ GoParam.contextParam :: ins₂) outs =
        funcspecSpec (ins₁ ++ ins₂) outs) ∧
    (∀ (ins₁ ins₂ outs : List GoParam),
      funcspecSpec (ins₁ ++ GoParam.outParameter :: ins₂) outs =
        funcspecSpec (ins₁ ++ ins₂) outs) := by
  refine ⟨by rfl, ?_, ?_⟩
  · intro ins₁ ins₂ outs
    simp [funcspecSpec, List.filterMap_append]
  · intro ins₁ ins₂ outs
    simp [funcspecSpec, List.filterMap_append]

/- ---------------------------------------------------------------------------
Plugin client stubs (internal/plugin/destroyer.go, internal/plugin/logs.go)
and the collector population of Manager.DestroyAll.
--------------------------------------------------------------------------- -/

/-- RPC status codes relevant to the capability probes. -/
inductive RpcCode
  | unimplemented
  | unavailable
  | otherCode
deriving DecidableEq, Repr

structure RpcErr where
  code : RpcCode
deriving DecidableEq, Repr

/-- Response of the IsDestroyer / IsLogPlatform RPC. -/
structure ImplResp where
  answer : Bool
deriving DecidableEq, Repr

/-- Mirrors destroyerClient.Implements and logClient.Implements: a nil client
answers false with no error; otherwise any RPC error, with no inspection of
its status code, is returned to the caller alongside a false answer, and a
successful response's answer is returned with no error. -/
def clientImplProbe (clientNil : Bool) (rpc : Except RpcErr ImplResp) :
    Bool × Option RpcErr :=
  if clientNil then (false, none)
  else
    match rpc with
    | .error e => (false, some e)
    | .ok resp => (resp.answer, none)

/-- C8 counterexample: when the probe RPC fails with the unimplemented status
code, the probe returns the error rather than the claimed error-free false
answer. -/
theorem c8_implements_unimplemented_cex :
    clientImplProbe false (.error ⟨RpcCode.unimplemented⟩) =
      (false, some ⟨RpcCode.unimplemented⟩) ∧
    clientImplProbe false (.error ⟨RpcCode.unimplemented⟩) ≠ (false, none) := by
  decide

/-- C8 (amended): when the probe RPC fails, with the unimplemented status
code or any other, the destroyer and log-platform Implements probes return a
false answer TOGETHER WITH the error: the failure is propagated to the
caller, not swallowed (unimplemented-as-absent handling exists only at
spec-fetching sites such as DefaultReleaserFunc, not in these probes); only
a nil client or a successful response yields an error-free answer. -/
theorem c8_implements_propagates_error :
    (∀ e : RpcErr, e.code = RpcCode.unimplemented →
      clientImplProbe false (.error e) = (false, some e)) ∧
    (∀ e : RpcErr, clientImplProbe false (.error e) = (false, some e)) ∧
    (∀ resp : ImplResp, clientImplProbe false (.ok resp) = (resp.answer, none)) ∧
    (∀ rpc : Except RpcErr ImplResp, clientImplProbe true rpc = (false, none)) :=
  ⟨fun _ _ => rfl, fun _ => rfl, fun _ => rfl, fun _ => rfl⟩

/-- Witness for C8's amended theorem at the unimplemented status code. -/
theorem c8_implements_witness :
    clientImplProbe false (.error ⟨RpcCode.unimplemented⟩) =
      (false, some ⟨RpcCode.unimplemented⟩) :=
  c8_implements_propagates_error.1 ⟨RpcCode.unimplemented⟩ rfl

/-- Wire response of the Destroy RPC as read by destroyerClient.destroy; both
collector fields are pointers in the generated code and may be nil. -/
structure DestroyRespW where
  declaredResources : Option (List String)
  destroyedResources : Option (List String)
deriving DecidableEq, Repr

/-- Outcome of a Go code path that may dereference a nil pointer. -/
inductive GoOutcome (α : Type)
  | nilDeref
  | value (a : α)
deriving DecidableEq, Repr

/-- Mirrors destroyerClient.destroy after the Destroy RPC: the code assigns
resp.DeclaredResources.Resources and
resp.DestroyedResources.DestroyedResources to the out-parameters BEFORE
checking err, dereferencing resp (nil whenever the RPC errored) and its two
collector fields; only after both assignments is err returned. -/
def destroyerClientDestroy (resp : Option DestroyRespW) (err : Option RpcErr) :
    GoOutcome (Option RpcErr) :=
  match resp with
  | none => .nilDeref
  | some r =>
    match r.declaredResources with
    | none => .nilDeref
    | some _ =>
      match r.destroyedResources with
      | none => .nilDeref
      | some _ => .value err

/-- C9: when the Destroy RPC fails (err non-nil and, per the RPC convention,
resp nil), the callback dereferences the nil response before the error check,
so the error value is never returned normally from that branch. -/
theorem c9_destroy_nil_deref :
    (∀ e : RpcErr, destroyerClientDestroy none (some e) = .nilDeref) ∧
    (∀ (e : RpcErr) (r : Option RpcErr),
      destroyerClientDestroy none (some e) ≠ .value r) := by
  constructor
  · intro e
    rfl
  · intro e r hc
    exact GoOutcome.noConfusion hc

/-- Witness for C9 at a concrete RPC error. -/
theorem c9_destroy_nil_deref_witness :
    destroyerClientDestroy none (some ⟨RpcCode.otherCode⟩) = .nilDeref ∧
    destroyerClientDestroy none (some ⟨RpcCode.otherCode⟩) ≠ .value none :=
  ⟨c9_destroy_nil_deref.1 ⟨RpcCode.otherCode⟩,
   c9_destroy_nil_deref.2 ⟨RpcCode.otherCode⟩ none⟩

def populateLoop (dcrSet dtrSet : Bool) : List Bool → GoOutcome Unit
  | [] => .value ()
  | hd :: rest =>
    if hd then
      if dtrSet then populateLoop dcrSet dtrSet rest else .nilDeref
    else
      if dcrSet then populateLoop dcrSet dtrSet rest else .nilDeref

/-- Mirrors the collector population at the end of Manager.DestroyAll: when
at least one of the declared (dcr) and destroyed (dtr) collectors is
configured, every resource is appended to the destroyed collector when it has
a destroy callback and to the declared collector otherwise, with no nil check
on the chosen collector; appending through an unconfigured collector is a nil
dereference. Each input entry records whether the resource has a destroy
callback; per-resource serialization is assumed to succeed (its failure
returns early and does not touch the collectors). -/
def populateCollectors (dcrSet dtrSet : Bool) (hasDestroy : List Bool) :
    GoOutcome Unit :=
  if dcrSet || dtrSet then populateLoop dcrSet dtrSet hasDestroy
  else .value ()

/-- C10: with exactly one collector configured, the destroy pass of
DestroyAll dereferences the unconfigured collector as soon as some resource's
destroy-callback presence selects it: a resource with a destroy callback and
no destroyed-resources collector, or one without a destroy callback and no
declared-resources collector. -/
theorem c10_collector_nil_deref :
    (∀ rs : List Bool, true ∈ rs →
      populateCollectors true false rs = .nilDeref) ∧
    (∀ rs : List Bool, false ∈ rs →
      populateCollectors false true rs = .nilDeref) := by
  constructor
  · intro rs hmem
    rw [populateCollectors]
    simp only [Bool.true_or, if_pos]
    induction rs with
    | nil => simp at hmem
    | cons hd rest ih =>
      cases hd with
      | true => simp [populateLoop]
      | false =>
        have : true ∈ rest := by simpa using hmem
        simp [populateLoop, ih this]
  · intro rs hmem
    rw [populateCollectors]
    simp only [Bool.or_true, if_pos]
    induction rs with
    | nil => simp at hmem
    | cons hd rest ih =>
      cases hd with
      | false => simp [populateLoop]
      | true =>
        have : false ∈ rest := by simpa using hmem
        simp [populateLoop, ih this]

/-- Witness for C10 at concrete mixed resource lists. -/
theorem c10_collector_witness :
    populateCollectors true false [false, true] = .nilDeref ∧
    populateCollectors false true [true, false] = .nilDeref :=
  ⟨c10_collector_nil_deref.1 [false, true] (by decide),
   c10_collector_nil_deref.2 [true, false] (by decide)⟩
